import Mathlib

/-!
Shallow embedding of the deletion confirmation-token subsystem of
`src/tools/config.py` (pihole-mcp-server).

The embedding models:
  * the module-level `pending_deletions` dict and `deletion_lock`;
  * `clean_expired_tokens`;
  * the `remove_local_a_record` and `remove_local_cname_record` tools
    (both the preview branch and the confirm branch).

Nondeterministic/ambient inputs of the Python code are passed explicitly:
`now` stands for `time.time()`, `freshToken` for `secrets.token_hex(16)`,
and a `RemoteEnv` describes the configured `pihole_clients` together with
the behaviour of every remote call (fetching a config section may fail
with an exception message; a remote delete either succeeds or raises).
Each operation additionally returns the list of lock/remote events it
performed, in order, so that statements about what happens while the
`deletion_lock` is held can be made.
-/

/-- Splits a character list at every occurrence of `sep`, mirroring Python
`str.split(sep)` with a one-character separator. -/
def splitCharAux (sep : Char) : List Char → List Char → List (List Char)
  | [], acc => [acc.reverse]
  | c :: rest, acc =>
      if c = sep then acc.reverse :: splitCharAux sep rest []
      else splitCharAux sep rest (c :: acc)

/-- Python `record.split(',')`. -/
def split_commas (s : String) : List String :=
  (splitCharAux ',' s.data []).map fun l => ⟨l⟩

/-- Python `record.split(' ', 1)`: split on the first space only. -/
def splitFirstSpaceAux : List Char → List Char → List (List Char)
  | [], acc => [acc.reverse]
  | c :: rest, acc =>
      if c = ' ' then [acc.reverse, rest]
      else splitFirstSpaceAux rest (c :: acc)

/-- Python `record.split(' ', 1)` on a string. -/
def split_first_space (s : String) : List String :=
  (splitFirstSpaceAux s.data []).map fun l => ⟨l⟩

/-- Python `int(s)` restricted to decimal literals: surrounding whitespace is
stripped, an optional single sign is allowed, and the remainder must be one
or more ASCII digits; anything else raises `ValueError` (`none`). -/
def python_int (s : String) : Option Int :=
  let t := (s.data.dropWhile Char.isWhitespace).reverse.dropWhile Char.isWhitespace |>.reverse
  let (sign, digits) :=
    match t with
    | '-' :: rest => ((-1 : Int), rest)
    | '+' :: rest => ((1 : Int), rest)
    | _ => ((1 : Int), t)
  if digits ≠ [] ∧ digits.all Char.isDigit then
    some (sign * (digits.foldl (fun acc c => acc * 10 + (c.toNat - 48)) 0 : Nat))
  else none

/-- Python single-quoting used by the f-string messages in `config.py`. -/
def pyq (s : String) : String := "'" ++ s ++ "'"

/-- One entry of a planned deletion, as the dicts appended to
`matching_records` in `config.py`: an A-record entry carries
`pihole`, `record`, `ip`, `host`; a CNAME entry carries `pihole`,
`record`, `host`, `target`, `ttl`. -/
inductive RecordInfo where
  | arec (pihole record ip host : String)
  | cname (pihole record host target : String) (ttl : Int)
deriving DecidableEq, Repr

/-- The `"pihole"` field, present on both shapes of entry. -/
def RecordInfo.pihole : RecordInfo → String
  | .arec p _ _ _ => p
  | .cname p _ _ _ _ => p

/-- The `"ip"` field: present on A entries, a `KeyError` (`none`) on CNAME
entries. -/
def RecordInfo.ipField : RecordInfo → Option String
  | .arec _ _ ip _ => some ip
  | .cname _ _ _ _ _ => none

/-- The `"target"` and `"ttl"` fields: present on CNAME entries, a
`KeyError` (`none`) on A entries. -/
def RecordInfo.cnameFields : RecordInfo → Option (String × Int)
  | .arec _ _ _ _ => none
  | .cname _ _ _ t ttl => some (t, ttl)

/-- The value stored in `pending_deletions` under a token:
`{"host": ..., "expires": ..., "piholes": [...], "records": [...]}`. -/
structure TokenData where
  host : String
  expires : Int
  piholes : List String
  records : List RecordInfo
deriving DecidableEq, Repr

/-- The `pending_deletions` dict, as an insertion-ordered association list. -/
abbrev Store := List (String × TokenData)

/-- Dict lookup (`confirm in pending_deletions` / `pending_deletions[confirm]`). -/
def lookupStore : Store → String → Option TokenData
  | [], _ => none
  | e :: rest, k => if e.1 = k then some e.2 else lookupStore rest k

/-- Dict assignment `pending_deletions[token] = data`: overwrite in place if
the key exists, else append. -/
def insertStore (st : Store) (k : String) (v : TokenData) : Store :=
  if st.any (fun e => e.1 = k) then
    st.map fun e => if e.1 = k then (k, v) else e
  else st ++ [(k, v)]

/-- Dict deletion `del pending_deletions[token]`. -/
def eraseStore (st : Store) (k : String) : Store :=
  st.filter fun e => ¬ e.1 = k

/-- Lock and remote-collaborator events, recorded in execution order. -/
inductive Event where
  | acquireLock
  | releaseLock
  | remoteFetch (pihole sect : String)
  | remoteDeleteA (pihole host ip : String)
  | remoteDeleteCname (pihole host target : String) (ttl : Int)
deriving DecidableEq, Repr

/-- The configured `pihole_clients` (their names, in dict order) together
with the behaviour of every remote call: `fetchHosts`/`fetchCnames` model
`get_config_section` plus the nested-`get` extraction (an `Except.error`
is an exception, carrying `str(e)`); `deleteA`/`deleteCname` are `true`
when the remote delete returns and `false` when it raises. -/
structure RemoteEnv where
  clients : List String
  fetchHosts : String → Except String (List String)
  fetchCnames : String → Except String (List String)
  deleteA : String → String → String → Bool
  deleteCname : String → String → String → Int → Bool

/-- Whether a remote fetch raised. -/
def fetchRaised : Except String (List String) → Bool
  | .error _ => true
  | .ok _ => false

/-- The dict returned by the two removal tools (plus `pythonError` for an
exception that escapes the tool body uncaught). -/
inductive RemovalResult where
  | invalid_token (message : String)
  | deleted (deleted : List RecordInfo) (message : String)
  | not_found (message : String)
  | pending_deletion (planned : List RecordInfo) (confirmationToken message : String)
  | error (message : String)
  | pythonError (message : String)
deriving DecidableEq, Repr

/-- The `"status"` field of the returned dict. -/
def RemovalResult.status : RemovalResult → String
  | .invalid_token _ => "invalid_token"
  | .deleted _ _ => "deleted"
  | .not_found _ => "not_found"
  | .pending_deletion _ _ _ => "pending_deletion"
  | .error _ => "error"
  | .pythonError _ => "exception"

/-- `clean_expired_tokens` on the store: delete every entry whose
`expires` is strictly below the current time. -/
def clean_expired_tokens (now : Int) (st : Store) : Store :=
  st.filter fun e => ¬ e.2.expires < now

/-- Python `list(set(r["pihole"] for r in rs))` (order-normalised to first
occurrence). -/
def piholeSet (rs : List RecordInfo) : List String :=
  (rs.map RecordInfo.pihole).dedup

/-- `len(set(r['pihole'] for r in rs))` rendered for the f-string messages. -/
def piholeCount (rs : List RecordInfo) : String :=
  toString (piholeSet rs).length

/-- The confirm-branch deletion loop of `remove_local_a_record`
(config.py lines 250-263): for each stored entry, `deletion_info["ip"]`
is read outside the `try` (a `KeyError` there aborts the loop and
propagates), then inside the `try` the client is looked up and the remote
delete performed; any exception there is swallowed and the entry is
skipped. Returns the accumulated `all_deleted` (or the uncaught
exception) together with the remote-delete events that occurred. -/
def confirmLoopA (env : RemoteEnv) (host : String) :
    List RecordInfo → Except String (List RecordInfo) × List Event
  | [] => (.ok [], [])
  | info :: rest =>
      match info.ipField with
      | none => (.error "KeyError: 'ip'", [])
      | some ip =>
          if env.clients.contains info.pihole then
            let ev := Event.remoteDeleteA info.pihole host ip
            match confirmLoopA env host rest with
            | (.error m, evs) => (.error m, ev :: evs)
            | (.ok ds, evs) =>
                (.ok (if env.deleteA info.pihole host ip then info :: ds else ds),
                 ev :: evs)
          else
            match confirmLoopA env host rest with
            | (.error m, evs) => (.error m, evs)
            | (.ok ds, evs) => (.ok ds, evs)

/-- The confirm-branch deletion loop of `remove_local_cname_record`
(config.py lines 389-403): reads `deletion_info["target"]` and
`deletion_info["ttl"]` outside the `try` (`KeyError` propagates), then
swallows any exception from the client lookup and remote delete. -/
def confirmLoopCname (env : RemoteEnv) (host : String) :
    List RecordInfo → Except String (List RecordInfo) × List Event
  | [] => (.ok [], [])
  | info :: rest =>
      match info.cnameFields with
      | none => (.error "KeyError: 'target'", [])
      | some (target, ttl) =>
          if env.clients.contains info.pihole then
            let ev := Event.remoteDeleteCname info.pihole host target ttl
            match confirmLoopCname env host rest with
            | (.error m, evs) => (.error m, ev :: evs)
            | (.ok ds, evs) =>
                (.ok (if env.deleteCname info.pihole host target ttl then info :: ds else ds),
                 ev :: evs)
          else
            match confirmLoopCname env host rest with
            | (.error m, evs) => (.error m, evs)
            | (.ok ds, evs) => (.ok ds, evs)

/-- The per-record A matcher of the preview branch (config.py lines
300-310): split on the first space; a match requires exactly two parts
with the second equal to `host`. -/
def matchARecord (target host record : String) : Option RecordInfo :=
  match split_first_space record with
  | [ip, h] => if h = host then some (.arec target record ip host) else none
  | _ => none

/-- All A matches of one backend's raw `dns/hosts` list, in list order. -/
def matchARecords (target host : String) (dns_config : List String) : List RecordInfo :=
  dns_config.filterMap (matchARecord target host)

/-- The per-record CNAME matcher of the preview branch (config.py lines
442-452): split on commas; a match requires the first part equal to
`host`; `target` defaults to `""` and `ttl` to `300` when parts are
missing, but a present non-numeric third part makes `int(parts[2])`
raise `ValueError` (an `Except.error`). -/
def matchCnameRecord (target_pihole host record : String) :
    Except String (Option RecordInfo) :=
  let parts := split_commas record
  if parts.headD "" = host then
    let record_target := parts.getD 1 ""
    match parts.get? 2 with
    | none => .ok (some (.cname target_pihole record host record_target 300))
    | some s =>
        match python_int s with
        | some ttl => .ok (some (.cname target_pihole record host record_target ttl))
        | none => .error ("invalid literal for int() with base 10: " ++ pyq s)
  else .ok none

/-- All CNAME matches of one backend's raw `dns/cnameRecords` list; the
first `ValueError` aborts (it is raised inside the per-backend `try`). -/
def matchCnameRecords (target_pihole host : String) :
    List String → Except String (List RecordInfo)
  | [] => .ok []
  | record :: rest =>
      match matchCnameRecord target_pihole host record with
      | .error e => .error e
      | .ok none => matchCnameRecords target_pihole host rest
      | .ok (some info) =>
          match matchCnameRecords target_pihole host rest with
          | .error e => .error e
          | .ok infos => .ok (info :: infos)

/-- The preview loop of `remove_local_a_record` (config.py lines 289-320):
process each target in order; fetch its `dns/hosts` section (an exception
returns the per-target error immediately) and accumulate matches. -/
def previewLoopA (env : RemoteEnv) (host : String) :
    List String → Except String (List RecordInfo) × List Event
  | [] => (.ok [], [])
  | t :: rest =>
      match env.fetchHosts t with
      | .error e =>
          (.error ("Error processing Pi-hole " ++ pyq t ++ ": " ++ e),
           [.remoteFetch t "dns/hosts"])
      | .ok dns_config =>
          match previewLoopA env host rest with
          | (.error m, evs) => (.error m, .remoteFetch t "dns/hosts" :: evs)
          | (.ok l, evs) =>
              (.ok (matchARecords t host dns_config ++ l),
               .remoteFetch t "dns/hosts" :: evs)

/-- The preview loop of `remove_local_cname_record` (config.py lines
428-462): like `previewLoopA` but a `ValueError` from the matcher is
caught by the same per-target `except` and also yields the per-target
error. -/
def previewLoopCname (env : RemoteEnv) (host : String) :
    List String → Except String (List RecordInfo) × List Event
  | [] => (.ok [], [])
  | t :: rest =>
      match env.fetchCnames t with
      | .error e =>
          (.error ("Error processing Pi-hole " ++ pyq t ++ ": " ++ e),
           [.remoteFetch t "dns/cnameRecords"])
      | .ok dns_config =>
          match matchCnameRecords t host dns_config with
          | .error e =>
              (.error ("Error processing Pi-hole " ++ pyq t ++ ": " ++ e),
               [.remoteFetch t "dns/cnameRecords"])
          | .ok ms =>
              match previewLoopCname env host rest with
              | (.error m, evs) => (.error m, .remoteFetch t "dns/cnameRecords" :: evs)
              | (.ok l, evs) =>
                  (.ok (ms ++ l), .remoteFetch t "dns/cnameRecords" :: evs)

/-- `targets = [pihole] if pihole is not None else pihole_clients.keys()`. -/
def resolveTargets (pihole : Option String) (env : RemoteEnv) : List String :=
  match pihole with
  | some p => [p]
  | none => env.clients

/-- `remove_local_a_record(host, confirm, pihole)` (config.py lines
210-346). `now` is `time.time()`, `freshToken` the value
`secrets.token_hex(16)` would produce, `st` the current
`pending_deletions`. Returns the result dict, the store afterwards, and
the ordered lock/remote events. -/
def remove_local_a_record (env : RemoteEnv) (now : Int) (freshToken : String)
    (host : String) (confirm : Option String) (pihole : Option String)
    (st : Store) : RemovalResult × Store × List Event :=
  let st0 := clean_expired_tokens now st
  let ev0 : List Event := [.acquireLock, .releaseLock]
  match confirm with
  | some tok =>
      match lookupStore st0 tok with
      | none =>
          (.invalid_token "Invalid or expired confirmation token. Please request deletion again.",
           st0, ev0 ++ [.acquireLock, .releaseLock])
      | some token_data =>
          if token_data.host ≠ host then
            (.invalid_token ("Token was issued for " ++ pyq token_data.host ++ ", not " ++
               pyq host ++ ". Please request deletion again."),
             st0, ev0 ++ [.acquireLock, .releaseLock])
          else
            match confirmLoopA env host token_data.records with
            | (.error m, evs) =>
                (.pythonError m, st0, ev0 ++ [.acquireLock] ++ evs ++ [.releaseLock])
            | (.ok all_deleted, evs) =>
                (.deleted all_deleted ("Removed " ++ toString all_deleted.length ++
                   " record(s) from " ++ piholeCount all_deleted ++ " Pi-hole(s)"),
                 eraseStore st0 tok, ev0 ++ [.acquireLock] ++ evs ++ [.releaseLock])
  | none =>
      let targets := resolveTargets pihole env
      match pihole with
      | some p =>
          if ¬ env.clients.contains p then
            (.error ("Pi-hole " ++ pyq p ++ " not found"), st0, ev0)
          else
            match previewLoopA env host targets with
            | (.error m, evs) => (.error m, st0, ev0 ++ evs)
            | (.ok all_planned, evs) =>
                if all_planned.isEmpty then
                  (.not_found ("No A records for " ++ pyq host ++
                     " exist in any selected Pi-hole; nothing to delete"),
                   st0, ev0 ++ evs)
                else
                  (.pending_deletion all_planned freshToken
                     ("To confirm deletion of " ++ toString all_planned.length ++
                      " record(s) from " ++ piholeCount all_planned ++
                      " Pi-hole(s), call again with confirm=" ++ pyq freshToken),
                   insertStore st0 freshToken
                     ⟨host, now + 600, piholeSet all_planned, all_planned⟩,
                   ev0 ++ evs ++ [.acquireLock, .releaseLock])
      | none =>
          match previewLoopA env host targets with
          | (.error m, evs) => (.error m, st0, ev0 ++ evs)
          | (.ok all_planned, evs) =>
              if all_planned.isEmpty then
                (.not_found ("No A records for " ++ pyq host ++
                   " exist in any selected Pi-hole; nothing to delete"),
                 st0, ev0 ++ evs)
              else
                (.pending_deletion all_planned freshToken
                   ("To confirm deletion of " ++ toString all_planned.length ++
                    " record(s) from " ++ piholeCount all_planned ++
                    " Pi-hole(s), call again with confirm=" ++ pyq freshToken),
                 insertStore st0 freshToken
                   ⟨host, now + 600, piholeSet all_planned, all_planned⟩,
                 ev0 ++ evs ++ [.acquireLock, .releaseLock])

/-- `remove_local_cname_record(host, confirm, pihole)` (config.py lines
349-488), same conventions as `remove_local_a_record`. -/
def remove_local_cname_record (env : RemoteEnv) (now : Int) (freshToken : String)
    (host : String) (confirm : Option String) (pihole : Option String)
    (st : Store) : RemovalResult × Store × List Event :=
  let st0 := clean_expired_tokens now st
  let ev0 : List Event := [.acquireLock, .releaseLock]
  match confirm with
  | some tok =>
      match lookupStore st0 tok with
      | none =>
          (.invalid_token "Invalid or expired confirmation token. Please request deletion again.",
           st0, ev0 ++ [.acquireLock, .releaseLock])
      | some token_data =>
          if token_data.host ≠ host then
            (.invalid_token ("Token was issued for " ++ pyq token_data.host ++ ", not " ++
               pyq host ++ ". Please request deletion again."),
             st0, ev0 ++ [.acquireLock, .releaseLock])
          else
            match confirmLoopCname env host token_data.records with
            | (.error m, evs) =>
                (.pythonError m, st0, ev0 ++ [.acquireLock] ++ evs ++ [.releaseLock])
            | (.ok all_deleted, evs) =>
                (.deleted all_deleted ("Removed " ++ toString all_deleted.length ++
                   " CNAME record(s) from " ++ piholeCount all_deleted ++ " Pi-hole(s)"),
                 eraseStore st0 tok, ev0 ++ [.acquireLock] ++ evs ++ [.releaseLock])
  | none =>
      let targets := resolveTargets pihole env
      match pihole with
      | some p =>
          if ¬ env.clients.contains p then
            (.error ("Pi-hole " ++ pyq p ++ " not found"), st0, ev0)
          else
            match previewLoopCname env host targets with
            | (.error m, evs) => (.error m, st0, ev0 ++ evs)
            | (.ok all_planned, evs) =>
                if all_planned.isEmpty then
                  (.not_found ("No CNAME records for " ++ pyq host ++
                     " exist in any selected Pi-hole"),
                   st0, ev0 ++ evs)
                else
                  (.pending_deletion all_planned freshToken
                     ("To confirm deletion of " ++ toString all_planned.length ++
                      " CNAME record(s) from " ++ piholeCount all_planned ++
                      " Pi-hole(s), call again with confirm=" ++ pyq freshToken),
                   insertStore st0 freshToken
                     ⟨host, now + 600, piholeSet all_planned, all_planned⟩,
                   ev0 ++ evs ++ [.acquireLock, .releaseLock])
      | none =>
          match previewLoopCname env host targets with
          | (.error m, evs) => (.error m, st0, ev0 ++ evs)
          | (.ok all_planned, evs) =>
              if all_planned.isEmpty then
                (.not_found ("No CNAME records for " ++ pyq host ++
                   " exist in any selected Pi-hole"),
                 st0, ev0 ++ evs)
              else
                (.pending_deletion all_planned freshToken
                   ("To confirm deletion of " ++ toString all_planned.length ++
                    " CNAME record(s) from " ++ piholeCount all_planned ++
                    " Pi-hole(s), call again with confirm=" ++ pyq freshToken),
                 insertStore st0 freshToken
                   ⟨host, now + 600, piholeSet all_planned, all_planned⟩,
                 ev0 ++ evs ++ [.acquireLock, .releaseLock])

/-- The two record kinds handled by the deletion orchestrator. -/
inductive RecordKind where
  | A
  | CNAME
deriving DecidableEq, Repr

/-- Kind-indexed dispatcher over the two removal tools. -/
def remove_record (kind : RecordKind) (env : RemoteEnv) (now : Int)
    (freshToken host : String) (confirm pihole : Option String)
    (st : Store) : RemovalResult × Store × List Event :=
  match kind with
  | .A => remove_local_a_record env now freshToken host confirm pihole st
  | .CNAME => remove_local_cname_record env now freshToken host confirm pihole st

/-- A stored entry is of the shape the given kind's confirm loop expects
(all its field reads succeed without `KeyError`). -/
def kindOk : RecordKind → RecordInfo → Bool
  | .A, .arec _ _ _ _ => true
  | .CNAME, .cname _ _ _ _ _ => true
  | _, _ => false

/-- The fixed message of the token-not-found / token-expired branch. -/
def genericInvalidMessage : String :=
  "Invalid or expired confirmation token. Please request deletion again."

/-- The message of the host-mismatch branch, which names the host the
token was issued for. -/
def mismatchMessage (issued given : String) : String :=
  "Token was issued for " ++ pyq issued ++ ", not " ++ pyq given ++
    ". Please request deletion again."

/-- The preview branch's explicit-target validation
(`pihole is not None and pihole not in pihole_clients`, negated). -/
def targetOk (pihole : Option String) (env : RemoteEnv) : Bool :=
  match pihole with
  | some p => env.clients.contains p
  | none => true

/-- Whether the confirm loop's remote delete for a stored entry returns
without raising (the client exists and the delete succeeds). -/
def attemptOk (kind : RecordKind) (env : RemoteEnv) (host : String) : RecordInfo → Bool :=
  match kind with
  | .A => fun r =>
      match r with
      | .arec p _ ip _ => env.clients.contains p && env.deleteA p host ip
      | .cname _ _ _ _ _ => false
  | .CNAME => fun r =>
      match r with
      | .arec _ _ _ _ => false
      | .cname p _ _ t ttl => env.clients.contains p && env.deleteCname p host t ttl

/-- The remote-delete event the confirm loop emits for a stored entry
(none when the client lookup raises `KeyError` before any remote call). -/
def attemptEv (kind : RecordKind) (env : RemoteEnv) (host : String) : RecordInfo → Option Event :=
  match kind with
  | .A => fun r =>
      match r with
      | .arec p _ ip _ =>
          if env.clients.contains p then some (.remoteDeleteA p host ip) else none
      | .cname _ _ _ _ _ => none
  | .CNAME => fun r =>
      match r with
      | .arec _ _ _ _ => none
      | .cname p _ _ t ttl =>
          if env.clients.contains p then some (.remoteDeleteCname p host t ttl) else none

/-- The `"message"` of a successful confirm, per kind. -/
def deletedMessage (kind : RecordKind) (ds : List RecordInfo) : String :=
  match kind with
  | .A => "Removed " ++ toString ds.length ++ " record(s) from " ++
      piholeCount ds ++ " Pi-hole(s)"
  | .CNAME => "Removed " ++ toString ds.length ++ " CNAME record(s) from " ++
      piholeCount ds ++ " Pi-hole(s)"

/-- Lock events, as opposed to remote-collaborator events. -/
def Event.isLock : Event → Bool
  | .acquireLock => true
  | .releaseLock => true
  | _ => false

/-- The events of a trace that occur while the `deletion_lock` is held,
given whether it is held at the start. -/
def eventsUnderLock : Bool → List Event → List Event
  | _, [] => []
  | _, Event.acquireLock :: rest => eventsUnderLock true rest
  | _, Event.releaseLock :: rest => eventsUnderLock false rest
  | true, e :: rest => e :: eventsUnderLock true rest
  | false, _ :: rest => eventsUnderLock false rest

/-! ### Store lemmas -/

theorem lookupStore_clean_of_not_expired {st : Store} {k : String} {td : TokenData}
    {now : Int} (hexp : ¬ td.expires < now) (hlk : lookupStore st k = some td) :
    lookupStore (clean_expired_tokens now st) k = some td := by
  rw [not_lt] at hexp
  induction st with
  | nil => simp [lookupStore] at hlk
  | cons e rest ih =>
      by_cases hk : e.1 = k
      · simp [lookupStore, hk] at hlk
        subst hlk
        simp [clean_expired_tokens, List.filter_cons, not_lt, hexp, lookupStore, hk]
      · simp [lookupStore, hk] at hlk
        by_cases he : now ≤ e.2.expires
        · simpa [clean_expired_tokens, List.filter_cons, not_lt, he, lookupStore, hk]
            using ih hlk
        · simpa [clean_expired_tokens, List.filter_cons, not_lt, he] using ih hlk

theorem lookupStore_clean_none {st : Store} {k : String} {now : Int}
    (hlk : lookupStore st k = none) :
    lookupStore (clean_expired_tokens now st) k = none := by
  induction st with
  | nil => simp [clean_expired_tokens, lookupStore]
  | cons e rest ih =>
      by_cases hk : e.1 = k
      · simp [lookupStore, hk] at hlk
      · simp [lookupStore, hk] at hlk
        by_cases he : now ≤ e.2.expires
        · simpa [clean_expired_tokens, List.filter_cons, not_lt, he, lookupStore, hk]
            using ih hlk
        · simpa [clean_expired_tokens, List.filter_cons, not_lt, he] using ih hlk

theorem lookupStore_of_not_mem_keys {st : Store} {k : String}
    (h : k ∉ st.map Prod.fst) : lookupStore st k = none := by
  induction st with
  | nil => rfl
  | cons e rest ih =>
      simp only [List.map_cons, List.mem_cons, not_or] at h
      have hk : ¬ e.1 = k := fun hc => h.1 hc.symm
      simpa [lookupStore, hk] using ih h.2

theorem lookupStore_clean_expired {st : Store} {k : String} {td : TokenData}
    {now : Int} (hnd : (st.map Prod.fst).Nodup)
    (hlk : lookupStore st k = some td) (hexp : td.expires < now) :
    lookupStore (clean_expired_tokens now st) k = none := by
  induction st with
  | nil => simp [lookupStore] at hlk
  | cons e rest ih =>
      simp only [List.map_cons, List.nodup_cons] at hnd
      by_cases hk : e.1 = k
      · simp [lookupStore, hk] at hlk
        subst hlk
        have hrest : lookupStore rest k = none :=
          lookupStore_of_not_mem_keys (hk ▸ hnd.1)
        have h2 := @lookupStore_clean_none rest k now hrest
        simpa [clean_expired_tokens, List.filter_cons, not_le.2 hexp] using h2
      · simp [lookupStore, hk] at hlk
        by_cases he : now ≤ e.2.expires
        · simpa [clean_expired_tokens, List.filter_cons, not_lt, he, lookupStore, hk]
            using ih hnd.2 hlk
        · simpa [clean_expired_tokens, List.filter_cons, not_lt, he] using ih hnd.2 hlk

theorem lookupStore_insert_self (st : Store) (k : String) (v : TokenData) :
    lookupStore (insertStore st k v) k = some v := by
  unfold insertStore
  by_cases h : st.any (fun e => e.1 = k)
  · simp only [h, if_true]
    induction st with
    | nil => simp at h
    | cons e rest ih =>
        by_cases hk : e.1 = k
        · simp [lookupStore, hk]
        · simp only [List.any_cons, Bool.or_eq_true, decide_eq_true_eq] at h
          rcases h with h | h
          · exact absurd h hk
          · simpa [lookupStore, hk] using ih (by simpa using h)
  · simp only [h, if_false]
    induction st with
    | nil => simp [lookupStore]
    | cons e rest ih =>
        simp only [List.any_cons, Bool.or_eq_true, decide_eq_true_eq, not_or] at h
        simpa [lookupStore, h.1] using ih (by simpa using h.2)

theorem lookupStore_erase_self (st : Store) (k : String) :
    lookupStore (eraseStore st k) k = none := by
  induction st with
  | nil => rfl
  | cons e rest ih =>
      by_cases hk : e.1 = k
      · simpa [eraseStore, List.filter_cons, hk] using ih
      · simpa [eraseStore, List.filter_cons, hk, lookupStore] using ih

/-! ### Loop lemmas -/

theorem confirmLoopA_ok (env : RemoteEnv) (host : String) (records : List RecordInfo)
    (hkind : ∀ r ∈ records, kindOk .A r = true) :
    confirmLoopA env host records =
      (.ok (records.filter (attemptOk .A env host)),
       records.filterMap (attemptEv .A env host)) := by
  induction records with
  | nil => rfl
  | cons info rest ih =>
      have hinfo := hkind info (List.mem_cons_self _ _)
      have hrest := ih fun r hr => hkind r (List.mem_cons_of_mem _ hr)
      match info, hinfo with
      | .arec p rec ip h, _ =>
          by_cases hc : p ∈ env.clients
          · by_cases hd : env.deleteA p host ip
            · simp [confirmLoopA, RecordInfo.ipField, RecordInfo.pihole, hc, hd, hrest,
                attemptOk, attemptEv, List.filter_cons, List.filterMap_cons]
            · simp [confirmLoopA, RecordInfo.ipField, RecordInfo.pihole, hc, hd, hrest,
                attemptOk, attemptEv, List.filter_cons, List.filterMap_cons]
          · simp [confirmLoopA, RecordInfo.ipField, RecordInfo.pihole, hc, hrest,
              attemptOk, attemptEv, List.filter_cons, List.filterMap_cons]

theorem confirmLoopCname_ok (env : RemoteEnv) (host : String) (records : List RecordInfo)
    (hkind : ∀ r ∈ records, kindOk .CNAME r = true) :
    confirmLoopCname env host records =
      (.ok (records.filter (attemptOk .CNAME env host)),
       records.filterMap (attemptEv .CNAME env host)) := by
  induction records with
  | nil => rfl
  | cons info rest ih =>
      have hinfo := hkind info (List.mem_cons_self _ _)
      have hrest := ih fun r hr => hkind r (List.mem_cons_of_mem _ hr)
      match info, hinfo with
      | .cname p rec h t ttl, _ =>
          by_cases hc : p ∈ env.clients
          · by_cases hd : env.deleteCname p host t ttl
            · simp [confirmLoopCname, RecordInfo.cnameFields, RecordInfo.pihole, hc, hd,
                hrest, attemptOk, attemptEv, List.filter_cons, List.filterMap_cons]
            · simp [confirmLoopCname, RecordInfo.cnameFields, RecordInfo.pihole, hc, hd,
                hrest, attemptOk, attemptEv, List.filter_cons, List.filterMap_cons]
          · simp [confirmLoopCname, RecordInfo.cnameFields, RecordInfo.pihole, hc, hrest,
              attemptOk, attemptEv, List.filter_cons, List.filterMap_cons]

theorem matchARecord_kindOk {t h rec : String} {r : RecordInfo}
    (hm : matchARecord t h rec = some r) : kindOk .A r = true := by
  unfold matchARecord at hm
  split at hm
  · split at hm
    · simp only [Option.some.injEq] at hm
      subst hm; rfl
    · simp at hm
  · simp at hm

theorem previewLoopA_kindOk {env : RemoteEnv} {host : String} {ts : List String}
    {l : List RecordInfo} {evs : List Event}
    (h : previewLoopA env host ts = (.ok l, evs)) :
    ∀ r ∈ l, kindOk .A r = true := by
  induction ts generalizing l evs with
  | nil =>
      simp only [previewLoopA, Prod.mk.injEq, Except.ok.injEq] at h
      rcases h with ⟨hl, _⟩
      simp [← hl]
  | cons t rest ih =>
      unfold previewLoopA at h
      split at h
      · simp at h
      · split at h
        · simp at h
        · rename_i l2 evs2 heq
          simp only [Prod.mk.injEq, Except.ok.injEq] at h
          rcases h with ⟨hl, _⟩
          subst hl
          intro r hr
          rcases List.mem_append.1 hr with hr | hr
          · rcases List.mem_filterMap.1 hr with ⟨rec, _, hmr⟩
            exact matchARecord_kindOk hmr
          · exact ih heq r hr

theorem matchCnameRecord_kindOk {t h rec : String} {r : RecordInfo}
    (hm : matchCnameRecord t h rec = .ok (some r)) : kindOk .CNAME r = true := by
  simp only [matchCnameRecord] at hm
  split at hm
  · split at hm
    · simp only [Except.ok.injEq, Option.some.injEq] at hm
      subst hm; rfl
    · split at hm
      · simp only [Except.ok.injEq, Option.some.injEq] at hm
        subst hm; rfl
      · simp at hm
  · simp at hm

theorem matchCnameRecords_kindOk {t h : String} {raws : List String}
    {l : List RecordInfo} (hm : matchCnameRecords t h raws = .ok l) :
    ∀ r ∈ l, kindOk .CNAME r = true := by
  induction raws generalizing l with
  | nil =>
      simp only [matchCnameRecords, Except.ok.injEq] at hm
      simp [← hm]
  | cons rec rest ih =>
      unfold matchCnameRecords at hm
      rcases h1 : matchCnameRecord t h rec with e | o
      · simp [h1] at hm
      · rcases o with _ | r0
        · simp only [h1] at hm
          exact ih hm
        · rcases h2 : matchCnameRecords t h rest with e2 | l2
          · simp [h1, h2] at hm
          · simp only [h1, h2, Except.ok.injEq] at hm
            subst hm
            intro r hr
            rcases List.mem_cons.1 hr with hr | hr
            · subst hr; exact matchCnameRecord_kindOk h1
            · exact ih h2 r hr

theorem previewLoopCname_kindOk {env : RemoteEnv} {host : String} {ts : List String}
    {l : List RecordInfo} {evs : List Event}
    (h : previewLoopCname env host ts = (.ok l, evs)) :
    ∀ r ∈ l, kindOk .CNAME r = true := by
  induction ts generalizing l evs with
  | nil =>
      simp only [previewLoopCname, Prod.mk.injEq, Except.ok.injEq] at h
      rcases h with ⟨hl, _⟩
      simp [← hl]
  | cons t rest ih =>
      unfold previewLoopCname at h
      rcases hf : env.fetchCnames t with e | cfg
      · simp [hf] at h
      · rcases hmm : matchCnameRecords t host cfg with e2 | ms
        · simp [hf, hmm] at h
        · rcases hrec : previewLoopCname env host rest with ⟨res, evs2⟩
          rcases res with m | l2
          · simp [hf, hmm, hrec] at h
          · simp only [hf, hmm, hrec, Prod.mk.injEq, Except.ok.injEq] at h
            rcases h with ⟨hl, _⟩
            subst hl
            intro r hr
            rcases List.mem_append.1 hr with hr | hr
            · exact matchCnameRecords_kindOk hmm r hr
            · exact ih hrec r hr

/-! ### Event lemmas -/

theorem confirmLoopA_no_lock (env : RemoteEnv) (host : String)
    (records : List RecordInfo) :
    ∀ e ∈ (confirmLoopA env host records).2, e.isLock = false := by
  induction records with
  | nil => simp [confirmLoopA]
  | cons info rest ih =>
      unfold confirmLoopA
      rcases info with ⟨p, rec, ip, h⟩ | ⟨p, rec, h, t, ttl⟩
      · by_cases hc : env.clients.contains p
        · rcases hrec : confirmLoopA env host rest with ⟨res, evs⟩
          rcases res with m | ds <;>
            · simp only [RecordInfo.ipField, RecordInfo.pihole, hc, if_true, hrec]
              intro e he
              rcases List.mem_cons.1 he with he | he
              · subst he; rfl
              · exact ih e (by simpa [hrec] using he)
        · rcases hrec : confirmLoopA env host rest with ⟨res, evs⟩
          rcases res with m | ds <;>
            · simp only [RecordInfo.ipField, RecordInfo.pihole, hc, if_false, hrec]
              intro e he
              exact ih e (by simpa [hrec] using he)
      · simp [RecordInfo.ipField]

theorem confirmLoopCname_no_lock (env : RemoteEnv) (host : String)
    (records : List RecordInfo) :
    ∀ e ∈ (confirmLoopCname env host records).2, e.isLock = false := by
  induction records with
  | nil => simp [confirmLoopCname]
  | cons info rest ih =>
      unfold confirmLoopCname
      rcases info with ⟨p, rec, ip, h⟩ | ⟨p, rec, h, t, ttl⟩
      · simp [RecordInfo.cnameFields]
      · by_cases hc : env.clients.contains p
        · rcases hrec : confirmLoopCname env host rest with ⟨res, evs⟩
          rcases res with m | ds <;>
            · simp only [RecordInfo.cnameFields, RecordInfo.pihole, hc, if_true, hrec]
              intro e he
              rcases List.mem_cons.1 he with he | he
              · subst he; rfl
              · exact ih e (by simpa [hrec] using he)
        · rcases hrec : confirmLoopCname env host rest with ⟨res, evs⟩
          rcases res with m | ds <;>
            · simp only [RecordInfo.cnameFields, RecordInfo.pihole, hc, if_false, hrec]
              intro e he
              exact ih e (by simpa [hrec] using he)

theorem previewLoopA_no_lock (env : RemoteEnv) (host : String) (ts : List String) :
    ∀ e ∈ (previewLoopA env host ts).2, e.isLock = false := by
  induction ts with
  | nil => simp [previewLoopA]
  | cons t rest ih =>
      unfold previewLoopA
      rcases hf : env.fetchHosts t with e | cfg
      · simp [Event.isLock]
      · rcases hrec : previewLoopA env host rest with ⟨res, evs⟩
        rcases res with m | l <;>
          · simp only
            intro e he
            rcases List.mem_cons.1 he with he | he
            · subst he; rfl
            · exact ih e (by simpa [hrec] using he)

theorem previewLoopCname_no_lock (env : RemoteEnv) (host : String) (ts : List String) :
    ∀ e ∈ (previewLoopCname env host ts).2, e.isLock = false := by
  induction ts with
  | nil => simp [previewLoopCname]
  | cons t rest ih =>
      unfold previewLoopCname
      rcases hf : env.fetchCnames t with e | cfg
      · simp [Event.isLock]
      · rcases hm : matchCnameRecords t host cfg with e2 | ms
        · simp [hf, hm, Event.isLock]
        · rcases hrec : previewLoopCname env host rest with ⟨res, evs⟩
          rcases res with m | l <;>
            · simp only [hf, hm, hrec]
              intro e he
              rcases List.mem_cons.1 he with he | he
              · subst he; rfl
              · exact ih e (by simpa [hrec] using he)

theorem eventsUnderLock_append_nolock_false {l : List Event}
    (hl : ∀ e ∈ l, e.isLock = false) (m : List Event) :
    eventsUnderLock false (l ++ m) = eventsUnderLock false m := by
  induction l with
  | nil => rfl
  | cons e rest ih =>
      have he := hl e (List.mem_cons_self _ _)
      have hrest := ih fun x hx => hl x (List.mem_cons_of_mem _ hx)
      cases e <;> simp [Event.isLock] at he ⊢ <;>
        simpa [eventsUnderLock] using hrest

theorem eventsUnderLock_append_nolock_true {l : List Event}
    (hl : ∀ e ∈ l, e.isLock = false) (m : List Event) :
    eventsUnderLock true (l ++ m) = l ++ eventsUnderLock true m := by
  induction l with
  | nil => rfl
  | cons e rest ih =>
      have he := hl e (List.mem_cons_self _ _)
      have hrest := ih fun x hx => hl x (List.mem_cons_of_mem _ hx)
      cases e <;> simp [Event.isLock] at he ⊢ <;>
        simpa [eventsUnderLock] using hrest

/-! ### Branch characterizations -/

theorem remove_confirm_not_found (kind : RecordKind) (env : RemoteEnv) (now : Int)
    (fresh host : String) (pihole : Option String) (st : Store) (tok : String)
    (hlk : lookupStore (clean_expired_tokens now st) tok = none) :
    remove_record kind env now fresh host (some tok) pihole st =
      (.invalid_token genericInvalidMessage, clean_expired_tokens now st,
       [.acquireLock, .releaseLock, .acquireLock, .releaseLock]) := by
  cases kind <;>
    simp [remove_record, remove_local_a_record, remove_local_cname_record, hlk,
      genericInvalidMessage]

theorem remove_confirm_mismatch (kind : RecordKind) (env : RemoteEnv) (now : Int)
    (fresh host : String) (pihole : Option String) (st : Store) (tok : String)
    (td : TokenData)
    (hlk : lookupStore (clean_expired_tokens now st) tok = some td)
    (hhost : td.host ≠ host) :
    remove_record kind env now fresh host (some tok) pihole st =
      (.invalid_token (mismatchMessage td.host host), clean_expired_tokens now st,
       [.acquireLock, .releaseLock, .acquireLock, .releaseLock]) := by
  cases kind <;>
    simp [remove_record, remove_local_a_record, remove_local_cname_record, hlk,
      hhost, mismatchMessage]

theorem remove_confirm_valid (kind : RecordKind) (env : RemoteEnv) (now : Int)
    (fresh host : String) (pihole : Option String) (st : Store) (tok : String)
    (td : TokenData)
    (hlk : lookupStore (clean_expired_tokens now st) tok = some td)
    (hhost : td.host = host)
    (hkind : ∀ r ∈ td.records, kindOk kind r = true) :
    remove_record kind env now fresh host (some tok) pihole st =
      (.deleted (td.records.filter (attemptOk kind env host))
         (deletedMessage kind (td.records.filter (attemptOk kind env host))),
       eraseStore (clean_expired_tokens now st) tok,
       [.acquireLock, .releaseLock, .acquireLock] ++
         td.records.filterMap (attemptEv kind env host) ++ [.releaseLock]) := by
  cases kind
  · have hloop := confirmLoopA_ok env host td.records hkind
    simp [remove_record, remove_local_a_record, hlk, hhost, hloop, deletedMessage]
  · have hloop := confirmLoopCname_ok env host td.records hkind
    simp [remove_record, remove_local_cname_record, hlk, hhost, hloop, deletedMessage]

theorem a_preview_pending_inv {env : RemoteEnv} {now : Int} {fresh host : String}
    {pihole : Option String} {st : Store} {planned : List RecordInfo}
    {tok msg : String} {st1 : Store} {tr : List Event}
    (h : remove_local_a_record env now fresh host none pihole st =
      (.pending_deletion planned tok msg, st1, tr)) :
    tok = fresh ∧
    st1 = insertStore (clean_expired_tokens now st) fresh
      ⟨host, now + 600, piholeSet planned, planned⟩ ∧
    (∀ r ∈ planned, kindOk .A r = true) := by
  unfold remove_local_a_record at h
  rcases pihole with _ | p
  · rcases hp : previewLoopA env host (resolveTargets none env) with ⟨res, evs⟩
    rcases res with m | all_planned
    · simp [hp] at h
    · simp only [hp] at h
      by_cases hE : all_planned.isEmpty
      · simp [hE] at h
      · simp only [hE, Bool.false_eq_true, if_false, Prod.mk.injEq,
          RemovalResult.pending_deletion.injEq] at h
        obtain ⟨⟨hpl, htok, _⟩, hst, _⟩ := h
        subst hpl; subst htok; subst hst
        exact ⟨rfl, rfl, previewLoopA_kindOk hp⟩
  · dsimp only at h
    by_cases hc : env.clients.contains p
    · rw [if_neg (not_not_intro hc)] at h
      rcases hp : previewLoopA env host (resolveTargets (some p) env) with ⟨res, evs⟩
      rcases res with m | all_planned
      · simp [hp] at h
      · simp only [hp] at h
        by_cases hE : all_planned.isEmpty
        · simp [hE] at h
        · simp only [hE, Bool.false_eq_true, if_false, Prod.mk.injEq,
            RemovalResult.pending_deletion.injEq] at h
          obtain ⟨⟨hpl, htok, _⟩, hst, _⟩ := h
          subst hpl; subst htok; subst hst
          exact ⟨rfl, rfl, previewLoopA_kindOk hp⟩
    · rw [if_pos hc] at h
      simp at h

theorem cname_preview_pending_inv {env : RemoteEnv} {now : Int} {fresh host : String}
    {pihole : Option String} {st : Store} {planned : List RecordInfo}
    {tok msg : String} {st1 : Store} {tr : List Event}
    (h : remove_local_cname_record env now fresh host none pihole st =
      (.pending_deletion planned tok msg, st1, tr)) :
    tok = fresh ∧
    st1 = insertStore (clean_expired_tokens now st) fresh
      ⟨host, now + 600, piholeSet planned, planned⟩ ∧
    (∀ r ∈ planned, kindOk .CNAME r = true) := by
  unfold remove_local_cname_record at h
  rcases pihole with _ | p
  · rcases hp : previewLoopCname env host (resolveTargets none env) with ⟨res, evs⟩
    rcases res with m | all_planned
    · simp [hp] at h
    · simp only [hp] at h
      by_cases hE : all_planned.isEmpty
      · simp [hE] at h
      · simp only [hE, Bool.false_eq_true, if_false, Prod.mk.injEq,
          RemovalResult.pending_deletion.injEq] at h
        obtain ⟨⟨hpl, htok, _⟩, hst, _⟩ := h
        subst hpl; subst htok; subst hst
        exact ⟨rfl, rfl, previewLoopCname_kindOk hp⟩
  · dsimp only at h
    by_cases hc : env.clients.contains p
    · rw [if_neg (not_not_intro hc)] at h
      rcases hp : previewLoopCname env host (resolveTargets (some p) env) with ⟨res, evs⟩
      rcases res with m | all_planned
      · simp [hp] at h
      · simp only [hp] at h
        by_cases hE : all_planned.isEmpty
        · simp [hE] at h
        · simp only [hE, Bool.false_eq_true, if_false, Prod.mk.injEq,
            RemovalResult.pending_deletion.injEq] at h
          obtain ⟨⟨hpl, htok, _⟩, hst, _⟩ := h
          subst hpl; subst htok; subst hst
          exact ⟨rfl, rfl, previewLoopCname_kindOk hp⟩
    · rw [if_pos hc] at h
      simp at h

theorem remove_preview_pending_inv {kind : RecordKind} {env : RemoteEnv} {now : Int}
    {fresh host : String} {pihole : Option String} {st : Store}
    {planned : List RecordInfo} {tok msg : String} {st1 : Store} {tr : List Event}
    (h : remove_record kind env now fresh host none pihole st =
      (.pending_deletion planned tok msg, st1, tr)) :
    tok = fresh ∧
    st1 = insertStore (clean_expired_tokens now st) fresh
      ⟨host, now + 600, piholeSet planned, planned⟩ ∧
    (∀ r ∈ planned, kindOk kind r = true) := by
  cases kind
  · exact a_preview_pending_inv h
  · exact cname_preview_pending_inv h

/-! ### Claims -/

/-- C1: Tokens are single-use: for every token issued by a preview, a
confirm call with that token and the matching host removes the token's
entry from the store (even if some or all of the per-entry remote
deletions fail, since the confirming environment `env2` is arbitrary), so
a second confirm call with the same token returns the `invalid_token`
outcome. -/
theorem c1_tokens_single_use (kind : RecordKind) (env env2 : RemoteEnv)
    (now now2 : Int) (fresh fresh2 host : String) (pihole pihole2 : Option String)
    (st : Store) (planned : List RecordInfo) (tok msg : String) (st1 : Store)
    (tr : List Event)
    (hprev : remove_record kind env now fresh host none pihole st =
      (.pending_deletion planned tok msg, st1, tr))
    (hTTL : ¬ now + 600 < now2) :
    ∃ ds msg2 st2 tr2,
      remove_record kind env2 now2 fresh2 host (some tok) pihole2 st1 =
        (.deleted ds msg2, st2, tr2) ∧
      lookupStore st2 tok = none ∧
      ∀ (env3 : RemoteEnv) (now3 : Int) (fresh3 : String) (pihole3 : Option String),
        ((remove_record kind env3 now3 fresh3 host (some tok) pihole3 st2).1).status =
          "invalid_token" := by
  obtain ⟨htok, hst1, hkind⟩ := remove_preview_pending_inv hprev
  subst htok
  subst hst1
  have hlk : lookupStore
      (clean_expired_tokens now2 (insertStore (clean_expired_tokens now st) tok
        ⟨host, now + 600, piholeSet planned, planned⟩)) tok =
      some ⟨host, now + 600, piholeSet planned, planned⟩ :=
    lookupStore_clean_of_not_expired hTTL (lookupStore_insert_self _ _ _)
  refine ⟨_, _, _, _,
    remove_confirm_valid kind env2 now2 fresh2 host pihole2 _ tok _ hlk rfl hkind,
    lookupStore_erase_self _ _, ?_⟩
  intro env3 now3 fresh3 pihole3
  have hnone : lookupStore (clean_expired_tokens now3
      (eraseStore (clean_expired_tokens now2 (insertStore (clean_expired_tokens now st)
        tok ⟨host, now + 600, piholeSet planned, planned⟩)) tok)) tok = none :=
    lookupStore_clean_none (lookupStore_erase_self _ _)
  rw [remove_confirm_not_found kind env3 now3 fresh3 host pihole3 _ tok hnone]
  rfl

/-- A one-backend environment whose remote deletes always raise, used to
instantiate the token-lifecycle theorems on concrete inputs. -/
def envC : RemoteEnv where
  clients := ["pi1"]
  fetchHosts := fun _ => .ok ["10.0.0.1 foo.lan"]
  fetchCnames := fun _ => .ok ["a,b"]
  deleteA := fun _ _ _ => false
  deleteCname := fun _ _ _ _ => false

/-- The store produced by the concrete A-record preview through `envC`. -/
def stC : Store :=
  [("tk", ⟨"foo.lan", 600, ["pi1"],
    [.arec "pi1" "10.0.0.1 foo.lan" "10.0.0.1" "foo.lan"]⟩)]

/-- C1 instantiated at a concrete preview/confirm pair (with failing
remote deletes). -/
theorem c1_tokens_single_use_witness :
    ∃ ds msg2 st2 tr2,
      remove_record .A envC 300 "tk2" "foo.lan" (some "tk") none stC =
        (.deleted ds msg2, st2, tr2) ∧
      lookupStore st2 "tk" = none ∧
      ∀ (env3 : RemoteEnv) (now3 : Int) (fresh3 : String) (pihole3 : Option String),
        ((remove_record .A env3 now3 fresh3 "foo.lan" (some "tk") pihole3 st2).1).status =
          "invalid_token" :=
  c1_tokens_single_use .A envC envC 0 300 "tk" "tk2" "foo.lan" none none []
    [.arec "pi1" "10.0.0.1 foo.lan" "10.0.0.1" "foo.lan"] "tk"
    "To confirm deletion of 1 record(s) from 1 Pi-hole(s), call again with confirm='tk'"
    stC
    [.acquireLock, .releaseLock, .remoteFetch "pi1" "dns/hosts", .acquireLock, .releaseLock]
    rfl (by decide)

/-- C2: a confirm call supplying a stored token but a different host
returns `invalid_token`, performs no remote deletion (the trace is just
the two lock acquire/release pairs), leaves the token's entry in the
store unchanged, and the token remains usable afterward for the correct
host within its expiry. -/
theorem c2_wrong_host_keeps_token (kind : RecordKind) (env : RemoteEnv)
    (now : Int) (fresh host : String) (pihole : Option String) (st : Store)
    (tok : String) (td : TokenData)
    (hlk : lookupStore st tok = some td)
    (hhost : td.host ≠ host)
    (hexp : ¬ td.expires < now) :
    remove_record kind env now fresh host (some tok) pihole st =
      (.invalid_token (mismatchMessage td.host host), clean_expired_tokens now st,
       [.acquireLock, .releaseLock, .acquireLock, .releaseLock]) ∧
    lookupStore (clean_expired_tokens now st) tok = some td ∧
    ∀ (env2 : RemoteEnv) (now2 : Int) (fresh2 : String) (pihole2 : Option String),
      ¬ td.expires < now2 →
      (∀ r ∈ td.records, kindOk kind r = true) →
      ((remove_record kind env2 now2 fresh2 td.host (some tok) pihole2
          (clean_expired_tokens now st)).1).status = "deleted" := by
  have hlk2 := lookupStore_clean_of_not_expired hexp hlk
  refine ⟨remove_confirm_mismatch kind env now fresh host pihole st tok td hlk2 hhost,
    hlk2, ?_⟩
  intro env2 now2 fresh2 pihole2 hexp2 hkind
  have hlk3 := lookupStore_clean_of_not_expired hexp2 hlk2
  rw [remove_confirm_valid kind env2 now2 fresh2 td.host pihole2 _ tok td hlk3 rfl hkind]
  rfl

/-- A store holding a token issued for `other.lan`, used to instantiate
the wrong-host theorems. -/
def stOther : Store :=
  [("tk", ⟨"other.lan", 600, ["pi1"],
    [.arec "pi1" "10.0.0.1 other.lan" "10.0.0.1" "other.lan"]⟩)]

/-- C2 instantiated: confirming `tk` with host `foo.lan` when it was
issued for `other.lan`. -/
theorem c2_wrong_host_keeps_token_witness :
    remove_record .A envC 0 "f" "foo.lan" (some "tk") none stOther =
      (.invalid_token (mismatchMessage "other.lan" "foo.lan"),
       clean_expired_tokens 0 stOther,
       [.acquireLock, .releaseLock, .acquireLock, .releaseLock]) ∧
    lookupStore (clean_expired_tokens 0 stOther) "tk" =
      some ⟨"other.lan", 600, ["pi1"],
        [.arec "pi1" "10.0.0.1 other.lan" "10.0.0.1" "other.lan"]⟩ ∧
    ∀ (env2 : RemoteEnv) (now2 : Int) (fresh2 : String) (pihole2 : Option String),
      ¬ (600 : Int) < now2 →
      (∀ r ∈ [RecordInfo.arec "pi1" "10.0.0.1 other.lan" "10.0.0.1" "other.lan"],
        kindOk .A r = true) →
      ((remove_record .A env2 now2 fresh2 "other.lan" (some "tk") pihole2
          (clean_expired_tokens 0 stOther)).1).status = "deleted" :=
  c2_wrong_host_keeps_token .A envC 0 "f" "foo.lan" none stOther "tk"
    ⟨"other.lan", 600, ["pi1"],
      [.arec "pi1" "10.0.0.1 other.lan" "10.0.0.1" "other.lan"]⟩
    rfl (by decide) (by decide)

theorem mismatchMessage_ne_generic (a b : String) :
    mismatchMessage a b ≠ genericInvalidMessage := by
  intro h
  have h2 := congrArg (fun s => s.data.head?) h
  simp [mismatchMessage, genericInvalidMessage, pyq] at h2

/-- C3 counterexample: two failing confirm calls — token not in the store
versus token issued for a different host — both return status
`invalid_token` but different caller-visible results (the mismatch
message names the issued host). -/
theorem c3_counterexample :
    ((remove_record .A envC 0 "f" "foo.lan" (some "tk") none []).1).status =
      "invalid_token" ∧
    ((remove_record .A envC 0 "f" "foo.lan" (some "tk") none stOther).1).status =
      "invalid_token" ∧
    (remove_record .A envC 0 "f" "foo.lan" (some "tk") none []).1 ≠
      (remove_record .A envC 0 "f" "foo.lan" (some "tk") none stOther).1 := by
  exact ⟨rfl, rfl, by decide⟩

/-- C3 amended: every failing token validation returns status
`invalid_token` with no remote call (the trace is the two lock pairs);
the not-found and expired causes return the byte-identical generic
result, but the host-mismatch cause returns a different message that
names the host the token was issued for. -/
theorem c3_invalid_token_collapse (kind : RecordKind) (env : RemoteEnv) (now : Int)
    (fresh host : String) (pihole : Option String) (st : Store) (tok : String)
    (hbad : ∀ td, lookupStore (clean_expired_tokens now st) tok = some td →
      td.host ≠ host) :
    ((remove_record kind env now fresh host (some tok) pihole st).1).status =
      "invalid_token" ∧
    (remove_record kind env now fresh host (some tok) pihole st).2.2 =
      [.acquireLock, .releaseLock, .acquireLock, .releaseLock] ∧
    (lookupStore (clean_expired_tokens now st) tok = none →
      (remove_record kind env now fresh host (some tok) pihole st).1 =
        .invalid_token genericInvalidMessage) ∧
    (∀ td, lookupStore (clean_expired_tokens now st) tok = some td →
      (remove_record kind env now fresh host (some tok) pihole st).1 =
        .invalid_token (mismatchMessage td.host host) ∧
      mismatchMessage td.host host ≠ genericInvalidMessage) := by
  rcases hl : lookupStore (clean_expired_tokens now st) tok with _ | td
  · rw [remove_confirm_not_found kind env now fresh host pihole st tok hl]
    refine ⟨rfl, rfl, fun _ => rfl, fun td h => ?_⟩
    cases h
  · rw [remove_confirm_mismatch kind env now fresh host pihole st tok td hl (hbad td hl)]
    refine ⟨rfl, rfl, fun h => ?_, fun td2 h2 => ?_⟩
    · cases h
    · have h3 : td = td2 := by injection h2
      subst h3
      exact ⟨rfl, mismatchMessage_ne_generic _ _⟩

/-- C3 amended, instantiated at the host-mismatch scenario. -/
theorem c3_invalid_token_collapse_witness :
    ((remove_record .A envC 0 "f" "foo.lan" (some "tk") none stOther).1).status =
      "invalid_token" ∧
    (remove_record .A envC 0 "f" "foo.lan" (some "tk") none stOther).2.2 =
      [.acquireLock, .releaseLock, .acquireLock, .releaseLock] ∧
    (lookupStore (clean_expired_tokens 0 stOther) "tk" = none →
      (remove_record .A envC 0 "f" "foo.lan" (some "tk") none stOther).1 =
        .invalid_token genericInvalidMessage) ∧
    (∀ td, lookupStore (clean_expired_tokens 0 stOther) "tk" = some td →
      (remove_record .A envC 0 "f" "foo.lan" (some "tk") none stOther).1 =
        .invalid_token (mismatchMessage td.host "foo.lan") ∧
      mismatchMessage td.host "foo.lan" ≠ genericInvalidMessage) :=
  c3_invalid_token_collapse .A envC 0 "f" "foo.lan" none stOther "tk"
    (fun td h => by
      have h2 : some (⟨"other.lan", 600, ["pi1"],
          [.arec "pi1" "10.0.0.1 other.lan" "10.0.0.1" "other.lan"]⟩ : TokenData) =
          some td := h
      have h3 : (⟨"other.lan", 600, ["pi1"],
          [.arec "pi1" "10.0.0.1 other.lan" "10.0.0.1" "other.lan"]⟩ : TokenData) =
          td := by injection h2
      rw [← h3]
      decide)

/-- C4: confirming an expired token (with its original host) returns
`invalid_token`, performs no remote deletion (the trace is the two lock
pairs), and the reap step removes the expired entry from the store. -/
theorem c4_expired_token_reaped (kind : RecordKind) (env : RemoteEnv) (now : Int)
    (fresh : String) (pihole : Option String) (st : Store) (tok : String)
    (td : TokenData)
    (hnd : (st.map Prod.fst).Nodup)
    (hlk : lookupStore st tok = some td)
    (hexp : td.expires < now) :
    remove_record kind env now fresh td.host (some tok) pihole st =
      (.invalid_token genericInvalidMessage, clean_expired_tokens now st,
       [.acquireLock, .releaseLock, .acquireLock, .releaseLock]) ∧
    lookupStore (clean_expired_tokens now st) tok = none := by
  have hnone := lookupStore_clean_expired hnd hlk hexp
  exact ⟨remove_confirm_not_found kind env now fresh td.host pihole st tok hnone, hnone⟩

/-- C4 instantiated: the token stored in `stC` expires at 600 and is
confirmed at time 1000. -/
theorem c4_expired_token_reaped_witness :
    remove_record .A envC 1000 "f" "foo.lan" (some "tk") none stC =
      (.invalid_token genericInvalidMessage, clean_expired_tokens 1000 stC,
       [.acquireLock, .releaseLock, .acquireLock, .releaseLock]) ∧
    lookupStore (clean_expired_tokens 1000 stC) "tk" = none :=
  c4_expired_token_reaped .A envC 1000 "f" none stC "tk"
    ⟨"foo.lan", 600, ["pi1"], [.arec "pi1" "10.0.0.1 foo.lan" "10.0.0.1" "foo.lan"]⟩
    (by decide) rfl (by decide)

theorem previewLoopA_empty {env : RemoteEnv} {host : String} {ts : List String}
    (h : ∀ t ∈ ts, ∃ cfg, env.fetchHosts t = .ok cfg ∧ matchARecords t host cfg = []) :
    ∃ evs, previewLoopA env host ts = (.ok [], evs) := by
  induction ts with
  | nil => exact ⟨[], rfl⟩
  | cons t rest ih =>
      obtain ⟨cfg, hf, hm⟩ := h t (List.mem_cons_self _ _)
      obtain ⟨evs, hrest⟩ := ih fun x hx => h x (List.mem_cons_of_mem _ hx)
      exact ⟨.remoteFetch t "dns/hosts" :: evs, by
        simp [previewLoopA, hf, hrest, hm]⟩

/-- C5 counterexample: a preview for a host with zero matching A records
returns `not_found`, but the token store is not left exactly as it was —
the call's lazy reap removes the expired entry of `stC`. -/
theorem c5_counterexample :
    ((remove_record .A envC 1000 "tk2" "nomatch.lan" none none stC).1).status =
      "not_found" ∧
    (remove_record .A envC 1000 "tk2" "nomatch.lan" none none stC).2.1 ≠ stC := by
  exact ⟨rfl, by decide⟩

/-- C5 amended: when no A record matches the host on any resolved target,
the preview returns `not_found`, issues no token, and creates no new
store entry — the store afterwards is the input store with expired
entries lazily reaped (unchanged when nothing had expired). -/
theorem c5_not_found_frame (env : RemoteEnv) (now : Int) (fresh host : String)
    (pihole : Option String) (st : Store)
    (hpi : targetOk pihole env = true)
    (hzero : ∀ t ∈ resolveTargets pihole env,
      ∃ cfg, env.fetchHosts t = .ok cfg ∧ matchARecords t host cfg = []) :
    ∃ evs,
      remove_local_a_record env now fresh host none pihole st =
        (.not_found ("No A records for " ++ pyq host ++
           " exist in any selected Pi-hole; nothing to delete"),
         clean_expired_tokens now st,
         .acquireLock :: .releaseLock :: evs) ∧
      ∀ k, lookupStore st k = none →
        lookupStore ((remove_local_a_record env now fresh host none pihole st).2.1)
          k = none := by
  obtain ⟨evs, hloop⟩ := previewLoopA_empty hzero
  refine ⟨evs, ?_⟩
  have hmain : remove_local_a_record env now fresh host none pihole st =
      (.not_found ("No A records for " ++ pyq host ++
         " exist in any selected Pi-hole; nothing to delete"),
       clean_expired_tokens now st,
       .acquireLock :: .releaseLock :: evs) := by
    unfold remove_local_a_record
    rcases pihole with _ | p
    · simp [hloop]
    · dsimp only
      have hc : env.clients.contains p := by simpa [targetOk] using hpi
      rw [if_neg (not_not_intro hc)]
      simp [hloop]
  refine ⟨hmain, fun k hk => ?_⟩
  rw [hmain]
  exact lookupStore_clean_none hk

/-- C5 amended, instantiated: the `nomatch.lan` preview at time 1000
reaps `stC` and creates nothing. -/
theorem c5_not_found_frame_witness :
    ∃ evs,
      remove_local_a_record envC 1000 "tk2" "nomatch.lan" none none stC =
        (.not_found ("No A records for " ++ pyq "nomatch.lan" ++
           " exist in any selected Pi-hole; nothing to delete"),
         clean_expired_tokens 1000 stC,
         .acquireLock :: .releaseLock :: evs) ∧
      ∀ k, lookupStore stC k = none →
        lookupStore ((remove_local_a_record envC 1000 "tk2" "nomatch.lan" none none
          stC).2.1) k = none :=
  c5_not_found_frame envC 1000 "tk2" "nomatch.lan" none stC (by decide)
    (by
      intro t ht
      have h1 : t = "pi1" := by simpa [resolveTargets, envC] using ht
      subst h1
      exact ⟨["10.0.0.1 foo.lan"], rfl, by decide⟩)

/-- A one-backend environment whose CNAME list holds a record with a
non-numeric ttl field. -/
def envBadTtl : RemoteEnv :=
  { envC with fetchCnames := fun _ => .ok ["a,b,x"] }

/-- C6 counterexample: a matching CNAME record whose third (ttl) part is
non-numeric does not fall back to the default ttl — `int(parts[2])`
raises, the per-backend handler catches it, and the whole preview call
fails with the `error` outcome. -/
theorem c6_counterexample :
    (remove_record .CNAME envBadTtl 0 "tk" "a" none none []).1 =
      .error ("Error processing Pi-hole " ++ pyq "pi1" ++ ": " ++
        ("invalid literal for int() with base 10: " ++ pyq "x")) := by
  decide

/-- C6 amended: the CNAME matcher splits on commas and matches on the
first part; a missing target or ttl part falls back to `""` and `300`
without raising, and a present numeric ttl part is parsed; but a present
non-numeric ttl part raises `ValueError`, which fails the whole call with
the per-backend `error` outcome. -/
theorem c6_cname_matcher (p h rec s : String) (ttl : Int) :
    ((split_commas rec).headD "" ≠ h → matchCnameRecord p h rec = .ok none) ∧
    ((split_commas rec).headD "" = h → (split_commas rec).length ≤ 2 →
      matchCnameRecord p h rec =
        .ok (some (.cname p rec h ((split_commas rec).getD 1 "") 300))) ∧
    ((split_commas rec).headD "" = h → (split_commas rec).get? 2 = some s →
      python_int s = some ttl →
      matchCnameRecord p h rec =
        .ok (some (.cname p rec h ((split_commas rec).getD 1 "") ttl))) ∧
    ((split_commas rec).headD "" = h → (split_commas rec).get? 2 = some s →
      python_int s = none →
      matchCnameRecord p h rec =
        .error ("invalid literal for int() with base 10: " ++ pyq s)) ∧
    (∀ (env : RemoteEnv) (now : Int) (fresh host : String) (st : Store) (c e : String),
      env.clients = [c] → env.fetchCnames c = .ok [rec] →
      matchCnameRecord c host rec = .error e →
      (remove_local_cname_record env now fresh host none none st).1 =
        .error ("Error processing Pi-hole " ++ pyq c ++ ": " ++ e)) := by
  refine ⟨fun hne => ?_, fun hh hlen => ?_, fun hh hg hp => ?_, fun hh hg hp => ?_,
    fun env now fresh host st c e hcl hfetch hmatch => ?_⟩
  · rw [List.headD_eq_head?] at hne
    simp [matchCnameRecord, hne]
  · have hg : (split_commas rec).get? 2 = none := List.get?_eq_none.2 hlen
    rw [List.headD_eq_head?] at hh
    rw [List.get?_eq_getElem?] at hg
    simp [matchCnameRecord, hh, hg]
  · rw [List.headD_eq_head?] at hh
    rw [List.get?_eq_getElem?] at hg
    simp [matchCnameRecord, hh, hg, hp]
  · rw [List.headD_eq_head?] at hh
    rw [List.get?_eq_getElem?] at hg
    simp [matchCnameRecord, hh, hg, hp]
  · simp [remove_local_cname_record, resolveTargets, hcl, previewLoopCname, hfetch,
      matchCnameRecords, hmatch]

/-- C6 amended, instantiated on concrete records. -/
theorem c6_cname_matcher_witness :
    matchCnameRecord "pi1" "a" "a,b" = .ok (some (.cname "pi1" "a,b" "a" "b" 300)) ∧
    matchCnameRecord "pi1" "a" "a,b,42" =
      .ok (some (.cname "pi1" "a,b,42" "a" "b" 42)) ∧
    matchCnameRecord "pi1" "a" "a,b,x" =
      .error ("invalid literal for int() with base 10: " ++ pyq "x") ∧
    matchCnameRecord "pi1" "z" "a,b" = .ok none ∧
    (remove_local_cname_record envBadTtl 0 "tk" "a" none none []).1 =
      .error ("Error processing Pi-hole " ++ pyq "pi1" ++ ": " ++
        ("invalid literal for int() with base 10: " ++ pyq "x")) := by
  refine ⟨?_, ?_, ?_, ?_, ?_⟩
  · exact (c6_cname_matcher "pi1" "a" "a,b" "" 0).2.1 (by decide) (by decide)
  · exact (c6_cname_matcher "pi1" "a" "a,b,42" "42" 42).2.2.1 (by decide) (by decide)
      (by decide)
  · exact (c6_cname_matcher "pi1" "a" "a,b,x" "x" 0).2.2.2.1 (by decide) (by decide)
      (by decide)
  · exact (c6_cname_matcher "pi1" "z" "a,b" "" 0).1 (by decide)
  · exact (c6_cname_matcher "pi1" "a" "a,b,x" "x" 0).2.2.2.2 envBadTtl 0 "tk" "a" []
      "pi1" ("invalid literal for int() with base 10: " ++ pyq "x") rfl rfl rfl

theorem previewLoopA_error_of_fail {env : RemoteEnv} {host : String}
    {ts : List String} {t : String} (ht : t ∈ ts)
    (hfail : fetchRaised (env.fetchHosts t) = true) :
    ∃ t0 e0 evs, t0 ∈ ts ∧ env.fetchHosts t0 = .error e0 ∧
      previewLoopA env host ts =
        (.error ("Error processing Pi-hole " ++ pyq t0 ++ ": " ++ e0), evs) := by
  induction ts with
  | nil => cases ht
  | cons t1 rest ih =>
      rcases hf : env.fetchHosts t1 with e | cfg
      · exact ⟨t1, e, [.remoteFetch t1 "dns/hosts"], List.mem_cons_self _ _, hf,
          by simp [previewLoopA, hf]⟩
      · have ht2 : t ∈ rest := by
          rcases List.mem_cons.1 ht with h | h
          · subst h
            rw [hf] at hfail
            simp [fetchRaised] at hfail
          · exact h
        obtain ⟨t0, e0, evs, hmem, he0, hloop⟩ := ih ht2
        exact ⟨t0, e0, .remoteFetch t1 "dns/hosts" :: evs,
          List.mem_cons_of_mem _ hmem, he0, by simp [previewLoopA, hf, hloop]⟩

/-- C7: if the raw-record fetch from any single resolved backend fails
during an A-record preview, the whole call fails with an `error` naming a
failing backend, no token is issued, and the store gains no entry (it is
only lazily reaped). -/
theorem c7_preview_fetch_failure_aborts (env : RemoteEnv) (now : Int)
    (fresh host : String) (pihole : Option String) (st : Store) (t : String)
    (hpi : targetOk pihole env = true)
    (ht : t ∈ resolveTargets pihole env)
    (hfail : fetchRaised (env.fetchHosts t) = true) :
    ∃ t0 e0 tr, t0 ∈ resolveTargets pihole env ∧ env.fetchHosts t0 = .error e0 ∧
      remove_local_a_record env now fresh host none pihole st =
        (.error ("Error processing Pi-hole " ++ pyq t0 ++ ": " ++ e0),
         clean_expired_tokens now st, tr) ∧
      ∀ k, lookupStore st k = none →
        lookupStore (clean_expired_tokens now st) k = none := by
  obtain ⟨t0, e0, evs, hmem, he0, hloop⟩ :=
    @previewLoopA_error_of_fail env host (resolveTargets pihole env) t ht hfail
  refine ⟨t0, e0, .acquireLock :: .releaseLock :: evs, hmem, he0, ?_,
    fun k hk => lookupStore_clean_none hk⟩
  unfold remove_local_a_record
  rcases pihole with _ | p
  · simp [hloop]
  · dsimp only
    have hc : env.clients.contains p := by simpa [targetOk] using hpi
    rw [if_neg (not_not_intro hc)]
    simp [hloop]

/-- A one-backend environment whose host fetch always raises. -/
def envFail : RemoteEnv :=
  { envC with fetchHosts := fun _ => .error "connection refused" }

/-- C7 instantiated: the single backend's fetch fails. -/
theorem c7_preview_fetch_failure_aborts_witness :
    ∃ t0 e0 tr, t0 ∈ resolveTargets none envFail ∧
      envFail.fetchHosts t0 = .error e0 ∧
      remove_local_a_record envFail 0 "tk" "foo.lan" none none stC =
        (.error ("Error processing Pi-hole " ++ pyq t0 ++ ": " ++ e0),
         clean_expired_tokens 0 stC, tr) ∧
      ∀ k, lookupStore stC k = none →
        lookupStore (clean_expired_tokens 0 stC) k = none :=
  c7_preview_fetch_failure_aborts envFail 0 "tk" "foo.lan" none stC "pi1"
    (by decide) (by decide) rfl

/-- C8 counterexample: a valid-token confirm whose single remote delete
raises still returns the `deleted` outcome, but reports an empty entry
list — the outcome is filtered by remote success, not the attempted plan
(which held one entry). -/
theorem c8_counterexample :
    (remove_record .A envC 0 "f" "foo.lan" (some "tk") none stC).1 =
      .deleted [] "Removed 0 record(s) from 0 Pi-hole(s)" ∧
    lookupStore stC "tk" =
      some ⟨"foo.lan", 600, ["pi1"],
        [.arec "pi1" "10.0.0.1 foo.lan" "10.0.0.1" "foo.lan"]⟩ := by
  exact ⟨by decide, rfl⟩

/-- C8 amended: on a valid-token confirm, per-entry remote failures are
swallowed (the call always returns the `deleted` outcome, never an
error), and the reported entries are exactly the stored plan entries
whose backend exists and whose remote delete returned without raising,
in plan order. -/
theorem c8_confirm_best_effort (kind : RecordKind) (env : RemoteEnv) (now : Int)
    (fresh host : String) (pihole : Option String) (st : Store) (tok : String)
    (td : TokenData)
    (hlk : lookupStore (clean_expired_tokens now st) tok = some td)
    (hhost : td.host = host)
    (hkind : ∀ r ∈ td.records, kindOk kind r = true) :
    (remove_record kind env now fresh host (some tok) pihole st).1 =
      .deleted (td.records.filter (attemptOk kind env host))
        (deletedMessage kind (td.records.filter (attemptOk kind env host))) ∧
    ((remove_record kind env now fresh host (some tok) pihole st).1).status =
      "deleted" := by
  rw [remove_confirm_valid kind env now fresh host pihole st tok td hlk hhost hkind]
  exact ⟨rfl, rfl⟩

/-- C8 amended, instantiated: the failing delete of `envC` filters the
single plan entry out of the reported list. -/
theorem c8_confirm_best_effort_witness :
    (remove_record .A envC 0 "f" "foo.lan" (some "tk") none stC).1 =
      .deleted ([RecordInfo.arec "pi1" "10.0.0.1 foo.lan" "10.0.0.1"
          "foo.lan"].filter (attemptOk .A envC "foo.lan"))
        (deletedMessage .A ([RecordInfo.arec "pi1" "10.0.0.1 foo.lan" "10.0.0.1"
          "foo.lan"].filter (attemptOk .A envC "foo.lan"))) ∧
    ((remove_record .A envC 0 "f" "foo.lan" (some "tk") none stC).1).status =
      "deleted" :=
  c8_confirm_best_effort .A envC 0 "f" "foo.lan" none stC "tk"
    ⟨"foo.lan", 600, ["pi1"], [.arec "pi1" "10.0.0.1 foo.lan" "10.0.0.1" "foo.lan"]⟩
    rfl rfl (by decide)

theorem attemptEv_no_lock {kind : RecordKind} {env : RemoteEnv} {host : String}
    {r : RecordInfo} {e : Event} (h : attemptEv kind env host r = some e) :
    e.isLock = false := by
  cases kind <;> rcases r with ⟨p, rec, ip, hh⟩ | ⟨p, rec, hh, t, ttl⟩ <;>
    simp only [attemptEv] at h
  · split at h
    · injection h with h
      subst h
      rfl
    · cases h
  · cases h
  · cases h
  · split at h
    · injection h with h
      subst h
      rfl
    · cases h

theorem eventsUnderLock_false_nil {evs : List Event}
    (h : ∀ e ∈ evs, e.isLock = false) : eventsUnderLock false evs = [] := by
  simpa using eventsUnderLock_append_nolock_false h []

/-- C9 counterexample: a valid-token confirm performs its remote delete
while holding the token-store lock. -/
theorem c9_counterexample :
    eventsUnderLock false
      (remove_record .A envC 0 "f" "foo.lan" (some "tk") none stC).2.2 =
      [.remoteDeleteA "pi1" "foo.lan" "10.0.0.1"] := by
  decide

/-- C9 amended: preview calls never perform a remote event while the
token-store lock is held, but a valid-token confirm performs all its
per-entry remote deletes inside the critical section. -/
theorem c9_lock_discipline (kind : RecordKind) (env : RemoteEnv) (now : Int)
    (fresh host : String) (pihole : Option String) (st : Store) (tok : String)
    (td : TokenData) :
    eventsUnderLock false
      (remove_record kind env now fresh host none pihole st).2.2 = [] ∧
    (lookupStore (clean_expired_tokens now st) tok = some td → td.host = host →
      (∀ r ∈ td.records, kindOk kind r = true) →
      eventsUnderLock false
        (remove_record kind env now fresh host (some tok) pihole st).2.2 =
        td.records.filterMap (attemptEv kind env host)) := by
  constructor
  · cases kind
    · unfold remove_record remove_local_a_record
      rcases pihole with _ | p
      · dsimp only
        rcases hp : previewLoopA env host (resolveTargets none env) with ⟨res, evs⟩
        have hnl : ∀ e ∈ evs, e.isLock = false := by
          have h2 := previewLoopA_no_lock env host (resolveTargets none env)
          simpa [hp] using h2
        rcases res with m | l
        · simp only [hp]
          show eventsUnderLock false evs = []
          exact eventsUnderLock_false_nil hnl
        · simp only [hp]
          by_cases hE : l.isEmpty
          · simp only [hE, if_true]
            show eventsUnderLock false evs = []
            exact eventsUnderLock_false_nil hnl
          · simp only [hE, Bool.false_eq_true, if_false]
            show eventsUnderLock false
              (evs ++ [Event.acquireLock, Event.releaseLock]) = []
            rw [eventsUnderLock_append_nolock_false hnl]
            rfl
      · dsimp only
        by_cases hc : env.clients.contains p
        · rw [if_neg (not_not_intro hc)]
          rcases hp : previewLoopA env host (resolveTargets (some p) env) with ⟨res, evs⟩
          have hnl : ∀ e ∈ evs, e.isLock = false := by
            have h2 := previewLoopA_no_lock env host (resolveTargets (some p) env)
            simpa [hp] using h2
          rcases res with m | l
          · simp only [hp]
            show eventsUnderLock false evs = []
            exact eventsUnderLock_false_nil hnl
          · simp only [hp]
            by_cases hE : l.isEmpty
            · simp only [hE, if_true]
              show eventsUnderLock false evs = []
              exact eventsUnderLock_false_nil hnl
            · simp only [hE, Bool.false_eq_true, if_false]
              show eventsUnderLock false
                (evs ++ [Event.acquireLock, Event.releaseLock]) = []
              rw [eventsUnderLock_append_nolock_false hnl]
              rfl
        · rw [if_pos hc]
          rfl
    · unfold remove_record remove_local_cname_record
      rcases pihole with _ | p
      · dsimp only
        rcases hp : previewLoopCname env host (resolveTargets none env) with ⟨res, evs⟩
        have hnl : ∀ e ∈ evs, e.isLock = false := by
          have h2 := previewLoopCname_no_lock env host (resolveTargets none env)
          simpa [hp] using h2
        rcases res with m | l
        · simp only [hp]
          show eventsUnderLock false evs = []
          exact eventsUnderLock_false_nil hnl
        · simp only [hp]
          by_cases hE : l.isEmpty
          · simp only [hE, if_true]
            show eventsUnderLock false evs = []
            exact eventsUnderLock_false_nil hnl
          · simp only [hE, Bool.false_eq_true, if_false]
            show eventsUnderLock false
              (evs ++ [Event.acquireLock, Event.releaseLock]) = []
            rw [eventsUnderLock_append_nolock_false hnl]
            rfl
      · dsimp only
        by_cases hc : env.clients.contains p
        · rw [if_neg (not_not_intro hc)]
          rcases hp : previewLoopCname env host (resolveTargets (some p) env)
            with ⟨res, evs⟩
          have hnl : ∀ e ∈ evs, e.isLock = false := by
            have h2 := previewLoopCname_no_lock env host (resolveTargets (some p) env)
            simpa [hp] using h2
          rcases res with m | l
          · simp only [hp]
            show eventsUnderLock false evs = []
            exact eventsUnderLock_false_nil hnl
          · simp only [hp]
            by_cases hE : l.isEmpty
            · simp only [hE, if_true]
              show eventsUnderLock false evs = []
              exact eventsUnderLock_false_nil hnl
            · simp only [hE, Bool.false_eq_true, if_false]
              show eventsUnderLock false
                (evs ++ [Event.acquireLock, Event.releaseLock]) = []
              rw [eventsUnderLock_append_nolock_false hnl]
              rfl
        · rw [if_pos hc]
          rfl
  · intro hlk hhost hkind
    rw [remove_confirm_valid kind env now fresh host pihole st tok td hlk hhost hkind]
    have hnl : ∀ e ∈ td.records.filterMap (attemptEv kind env host),
        e.isLock = false := by
      intro e he
      rcases List.mem_filterMap.1 he with ⟨r, _, hr⟩
      exact attemptEv_no_lock hr
    show eventsUnderLock true
      (td.records.filterMap (attemptEv kind env host) ++ [Event.releaseLock]) = _
    rw [eventsUnderLock_append_nolock_true hnl]
    simp [eventsUnderLock]

/-- C9 amended, instantiated: the preview through `envC` does nothing
remote under the lock, while the valid-token confirm performs its
per-entry delete there. -/
theorem c9_lock_discipline_witness :
    eventsUnderLock false
      (remove_record .A envC 0 "f" "foo.lan" none none stC).2.2 = [] ∧
    eventsUnderLock false
      (remove_record .A envC 0 "f" "foo.lan" (some "tk") none stC).2.2 =
      [RecordInfo.arec "pi1" "10.0.0.1 foo.lan" "10.0.0.1" "foo.lan"].filterMap
        (attemptEv .A envC "foo.lan") :=
  ⟨(c9_lock_discipline .A envC 0 "f" "foo.lan" none stC "tk"
      ⟨"foo.lan", 600, ["pi1"],
        [.arec "pi1" "10.0.0.1 foo.lan" "10.0.0.1" "foo.lan"]⟩).1,
   (c9_lock_discipline .A envC 0 "f" "foo.lan" none stC "tk"
      ⟨"foo.lan", 600, ["pi1"],
        [.arec "pi1" "10.0.0.1 foo.lan" "10.0.0.1" "foo.lan"]⟩).2
     rfl rfl (by decide)⟩

theorem confirm_never_error (kind : RecordKind) (env : RemoteEnv) (now : Int)
    (fresh host tok : String) (pihole : Option String) (st : Store) (m : String) :
    (remove_record kind env now fresh host (some tok) pihole st).1 ≠
      RemovalResult.error m := by
  cases kind
  · unfold remove_record remove_local_a_record
    dsimp only
    rcases hl : lookupStore (clean_expired_tokens now st) tok with _ | td
    · simp only [hl]
      exact fun h => RemovalResult.noConfusion h
    · simp only [hl]
      by_cases hh : td.host ≠ host
      · rw [if_pos hh]
        exact fun h => RemovalResult.noConfusion h
      · rw [if_neg hh]
        rcases hloop : confirmLoopA env host td.records with ⟨res, evs⟩
        rcases res with m2 | ds <;> simp only [hloop] <;>
          exact fun h => RemovalResult.noConfusion h
  · unfold remove_record remove_local_cname_record
    dsimp only
    rcases hl : lookupStore (clean_expired_tokens now st) tok with _ | td
    · simp only [hl]
      exact fun h => RemovalResult.noConfusion h
    · simp only [hl]
      by_cases hh : td.host ≠ host
      · rw [if_pos hh]
        exact fun h => RemovalResult.noConfusion h
      · rw [if_neg hh]
        rcases hloop : confirmLoopCname env host td.records with ⟨res, evs⟩
        rcases res with m2 | ds <;> simp only [hloop] <;>
          exact fun h => RemovalResult.noConfusion h

/-- C10: when a confirm token is supplied, the deletion tools ignore the
`pihole` argument entirely (the whole result — outcome, store, trace — is
independent of it), and an unknown `pihole` name alongside a token never
produces the target-not-found `error` outcome. -/
theorem c10_confirm_ignores_target_filter (kind : RecordKind) (env : RemoteEnv)
    (now : Int) (fresh host tok : String) (p1 p2 : Option String) (st : Store) :
    remove_record kind env now fresh host (some tok) p1 st =
      remove_record kind env now fresh host (some tok) p2 st ∧
    ∀ (p m : String), ¬ env.clients.contains p = true →
      (remove_record kind env now fresh host (some tok) (some p) st).1 ≠
        RemovalResult.error m := by
  constructor
  · cases kind <;> rfl
  · intro p m hp
    exact confirm_never_error kind env now fresh host tok (some p) st m

/-- C10 instantiated: an unknown backend name `zzz` alongside a valid
token changes nothing and is not rejected. -/
theorem c10_confirm_ignores_target_filter_witness :
    (remove_record .A envC 0 "f" "foo.lan" (some "tk") none stC =
      remove_record .A envC 0 "f" "foo.lan" (some "tk") (some "zzz") stC) ∧
    (remove_record .A envC 0 "f" "foo.lan" (some "tk") (some "zzz") stC).1 ≠
      RemovalResult.error ("Pi-hole " ++ pyq "zzz" ++ " not found") :=
  ⟨(c10_confirm_ignores_target_filter .A envC 0 "f" "foo.lan" "tk" none
      (some "zzz") stC).1,
   (c10_confirm_ignores_target_filter .A envC 0 "f" "foo.lan" "tk" none
      (some "zzz") stC).2 "zzz" ("Pi-hole " ++ pyq "zzz" ++ " not found")
     (by decide)⟩
